import Mathlib

/-!
Verification of the index-client facade and homepage display logic of the
`code-dispatch` repository.

The embedded code comes from:
* `src/data/blog/algolia-nextjs-initialization.mdx` — the `getAllResults`
  pagination loop, the `mapIndexToSort` sort-key mapper, and the `multiSearch`
  facade method;
* `src/app/Main.tsx` — the `Home` component's post-slicing constants.
-/

namespace CodeDispatch

/-! ## Sort-key mapper (`mapIndexToSort`, mdx lines 176-198)

The TypeScript `SortType` union is a set of string literals; at runtime the
`switch` dispatches on plain strings, so the mapper is embedded as a function
on `String` with the same case chain and the same `default` fallback. -/

/-- The five string literals of the closed `SortType` union. -/
def sortTypeValues : List String :=
  ["minPrice:desc", "minPrice:asc", "avgRating:desc",
   "updatedAtTimestamp:asc", "updatedAtTimestamp:desc"]

/-- `mapIndexToSort` from the article: a `switch` on the sort option returning
`` `${index}_..._...` `` for each recognized case and the raw `index` in the
`default` branch. -/
def mapIndexToSort (index : String) (sortOption : String) : String :=
  if sortOption = "minPrice:desc" then index ++ "_price_desc"
  else if sortOption = "minPrice:asc" then index ++ "_price_asc"
  else if sortOption = "avgRating:desc" then index ++ "_rating_desc"
  else if sortOption = "updatedAtTimestamp:asc" then index ++ "_updated_asc"
  else if sortOption = "updatedAtTimestamp:desc" then index ++ "_updated_desc"
  else index

/-- The replica-name suffix contributed by a sort option alone: the part of
each `mapIndexToSort` branch that does not mention `index`. -/
def sortSuffix (sortOption : String) : String :=
  if sortOption = "minPrice:desc" then "_price_desc"
  else if sortOption = "minPrice:asc" then "_price_asc"
  else if sortOption = "avgRating:desc" then "_rating_desc"
  else if sortOption = "updatedAtTimestamp:asc" then "_updated_asc"
  else if sortOption = "updatedAtTimestamp:desc" then "_updated_desc"
  else ""

theorem String.append_left_cancel {s t u : String} (h : s ++ t = s ++ u) :
    t = u := by
  have hd : s.data ++ t.data = s.data ++ u.data := congrArg String.data h
  exact String.ext (List.append_cancel_left hd)

theorem string_append_empty (s : String) : s ++ "" = s :=
  String.ext (by simp [String.data_append])

theorem mapIndexToSort_eq_append (index sortOption : String) :
    mapIndexToSort index sortOption = index ++ sortSuffix sortOption := by
  unfold mapIndexToSort sortSuffix
  split
  · rfl
  · split
    · rfl
    · split
      · rfl
      · split
        · rfl
        · split
          · rfl
          · exact (string_append_empty index).symm

/-- C9 — `mapIndexToSort index sortOption` always factors as `index`
followed by a suffix computed from `sortOption` alone (`""` in the default
branch); in particular `index` is a prefix of every result. -/
theorem mapIndexToSort_factors (index sortOption : String) :
    mapIndexToSort index sortOption = index ++ sortSuffix sortOption :=
  mapIndexToSort_eq_append index sortOption

/-- C2 — the sort mapper is total: any `sortOption` outside the closed
`SortType` enumeration falls through every `case` to the `default` branch,
which returns the `index` unchanged (a normal return, not an error). -/
theorem mapIndexToSort_default (index sortOption : String)
    (h : sortOption ∉ sortTypeValues) :
    mapIndexToSort index sortOption = index := by
  simp only [sortTypeValues, List.mem_cons, List.not_mem_nil, or_false,
    not_or] at h
  obtain ⟨h1, h2, h3, h4, h5⟩ := h
  simp [mapIndexToSort, h1, h2, h3, h4, h5]

/-- Witness for C2 at a concrete out-of-enumeration option. -/
theorem mapIndexToSort_default_witness :
    "minPrice:ascending" ∉ sortTypeValues ∧
      mapIndexToSort "products" "minPrice:ascending" = "products" :=
  ⟨by decide, mapIndexToSort_default "products" "minPrice:ascending" (by decide)⟩

/-- C4 — each enumeration value maps to its replica identifier
(`"products_price_asc"`, `"products_rating_desc"` as documented), and on the
closed enumeration the mapping is injective for a fixed `index`: distinct
sort options yield distinct replica names. -/
theorem mapIndexToSort_replica_bijective :
    mapIndexToSort "products" "minPrice:asc" = "products_price_asc" ∧
    mapIndexToSort "products" "avgRating:desc" = "products_rating_desc" ∧
    ∀ (index s₁ s₂ : String), s₁ ∈ sortTypeValues → s₂ ∈ sortTypeValues →
      mapIndexToSort index s₁ = mapIndexToSort index s₂ → s₁ = s₂ := by
  refine ⟨by decide, by decide, ?_⟩
  intro index s₁ s₂ h₁ h₂ heq
  rw [mapIndexToSort_eq_append, mapIndexToSort_eq_append] at heq
  have hsuf : sortSuffix s₁ = sortSuffix s₂ := String.append_left_cancel heq
  simp only [sortTypeValues, List.mem_cons, List.not_mem_nil, or_false] at h₁ h₂
  rcases h₁ with rfl | rfl | rfl | rfl | rfl <;>
    rcases h₂ with rfl | rfl | rfl | rfl | rfl <;>
    first
      | rfl
      | (exfalso; revert hsuf; decide)

/-- Witness for C4: the injectivity part applied at concrete enumeration
values, next to the two documented concrete mappings. -/
theorem mapIndexToSort_replica_bijective_witness :
    "minPrice:asc" ∈ sortTypeValues ∧
      mapIndexToSort "products" "minPrice:asc" = "products_price_asc" :=
  ⟨by decide,
    by
      have h := mapIndexToSort_replica_bijective.2.2 "products"
        "minPrice:asc" "minPrice:asc" (by decide) (by decide) rfl
      exact mapIndexToSort_replica_bijective.1⟩

/-! ## Full-index browse (`getAllResults`, mdx lines 147-170)

The TypeScript loop is a `do/while`: it always issues at least one `browse`
request; each request spreads the caller's `browseParams` and then overrides
`hitsPerPage: 1000` and `page: currentPage`; after each response it sets
`totalPages = nbPages || 0` and increments `currentPage`, looping while
`currentPage < totalPages`.  The backend is a parameter (a function from the
request to a response); the loop is embedded with explicit fuel because an
adversarial backend can keep it running forever. -/

/-- The caller-visible browse parameters: the two fields the loop overrides,
plus `rest` standing for every other parameter the spread preserves. -/
structure BrowseParams where
  hitsPerPage : Option Nat
  page : Option Nat
  rest : String
deriving DecidableEq, Repr

/-- Browse parameters with no caller-supplied fields, for concrete runs. -/
def defaultParams : BrowseParams := ⟨none, none, ""⟩

/-- A backend `browse` response: the page's hits and the reported `nbPages`
(`none` models an absent field). -/
structure BrowseResponse (α : Type) where
  hits : List α
  nbPages : Option Nat
deriving DecidableEq, Repr

/-- The value `getAllResults` returns: `{ hits: allHits, totalPages }`. -/
structure BrowseResult (α : Type) where
  hits : List α
  totalPages : Nat
deriving DecidableEq, Repr

/-- The request object built in each iteration:
`{ ...args.browseParams, hitsPerPage: 1000, page: currentPage }` — the spread
comes first, so the two explicit keys override whatever the caller supplied. -/
def buildRequest (args : BrowseParams) (currentPage : Nat) : BrowseParams :=
  { args with hitsPerPage := some 1000, page := some currentPage }

/-- The `do/while` body of `getAllResults`, with explicit fuel.  The request
list accumulator records every `browse` call issued, in order.  `none` means
the fuel ran out before the loop exited. -/
def getAllResultsLoop (backend : BrowseParams → BrowseResponse α)
    (args : BrowseParams) :
    Nat → Nat → List α → List BrowseParams →
      Option (BrowseResult α × List BrowseParams)
  | 0, _, _, _ => none
  | fuel + 1, currentPage, acc, reqs =>
    let req := buildRequest args currentPage
    let resp := backend req
    if currentPage + 1 < resp.nbPages.getD 0 then
      getAllResultsLoop backend args fuel (currentPage + 1)
        (acc ++ resp.hits) (reqs ++ [req])
    else
      some (⟨acc ++ resp.hits, resp.nbPages.getD 0⟩, reqs ++ [req])

/-- `getAllResults`: run the loop from page 0 with empty accumulators and
return `{ hits, totalPages }`. -/
def getAllResults (backend : BrowseParams → BrowseResponse α)
    (args : BrowseParams) (fuel : Nat) : Option (BrowseResult α) :=
  (getAllResultsLoop backend args fuel 0 [] []).map Prod.fst

/-- The sequence of `browse` requests a `getAllResults` run issues. -/
def browseRequests (backend : BrowseParams → BrowseResponse α)
    (args : BrowseParams) (fuel : Nat) : Option (List BrowseParams) :=
  (getAllResultsLoop backend args fuel 0 [] []).map Prod.snd

/-- Concatenation of `n` successive values of `f` starting at `c`, matching
the order in which the loop appends page hits. -/
def concatFrom (f : Nat → List α) (c : Nat) : Nat → List α
  | 0 => []
  | n + 1 => f c ++ concatFrom f (c + 1) n

theorem concatFrom_shift (f : Nat → List α) :
    ∀ (n c : Nat), concatFrom f (c + 1) n = concatFrom (fun i => f (i + 1)) c n := by
  intro n
  induction n with
  | zero => intro c; rfl
  | succ n ih =>
    intro c
    simp only [concatFrom, ih (c + 1)]

/-- Every terminating run of the loop appends, to the incoming request
accumulator, a nonempty block of requests built for the consecutive pages
`c, c+1, ...`. -/
theorem getAllResultsLoop_requests (backend : BrowseParams → BrowseResponse α)
    (args : BrowseParams) :
    ∀ (fuel c : Nat) (acc : List α) (reqs : List BrowseParams)
      (r : BrowseResult α) (reqs' : List BrowseParams),
      getAllResultsLoop backend args fuel c acc reqs = some (r, reqs') →
      ∃ n, 1 ≤ n ∧
        reqs' = reqs ++ (List.range' c n).map (buildRequest args) := by
  intro fuel
  induction fuel with
  | zero => intro c acc reqs r reqs' h; simp [getAllResultsLoop] at h
  | succ fuel ih =>
    intro c acc reqs r reqs' h
    simp only [getAllResultsLoop] at h
    split at h
    · obtain ⟨n, hn, hshape⟩ := ih (c + 1) _ _ r reqs' h
      refine ⟨n + 1, Nat.le_add_left 1 n, ?_⟩
      rw [hshape, List.range'_succ, List.map_cons, List.append_assoc]
      rfl
    · obtain ⟨hr, hreqs⟩ := Prod.mk.injEq _ _ _ _ ▸ Option.some.injEq _ _ ▸ h
      refine ⟨1, Nat.le_refl 1, ?_⟩
      rw [← hreqs]
      rfl

/-- For a backend that reports a constant effective page count `T`, a run of
the loop started below `T` with fuel at least `T - c` fetches exactly pages
`c, ..., T-1` and returns their hits in order. -/
theorem getAllResultsLoop_const (backend : BrowseParams → BrowseResponse α)
    (args : BrowseParams) (T : Nat)
    (hT : ∀ req, (backend req).nbPages.getD 0 = T) :
    ∀ (fuel c : Nat) (acc : List α) (reqs : List BrowseParams),
      c < T → T - c ≤ fuel →
      getAllResultsLoop backend args fuel c acc reqs =
        some (⟨acc ++ concatFrom (fun i => (backend (buildRequest args i)).hits) c (T - c), T⟩,
          reqs ++ (List.range' c (T - c)).map (buildRequest args)) := by
  intro fuel
  induction fuel with
  | zero =>
    intro c acc reqs hc hfuel
    omega
  | succ fuel ih =>
    intro c acc reqs hc hfuel
    simp only [getAllResultsLoop, hT]
    by_cases hcond : c + 1 < T
    · rw [if_pos hcond]
      rw [ih (c + 1) _ _ hcond (by omega)]
      have hsub : T - c = (T - (c + 1)) + 1 := by omega
      rw [hsub]
      simp only [concatFrom, List.range'_succ, List.map_cons,
        List.append_assoc, List.cons_append, List.nil_append]
    · rw [if_neg hcond]
      have hTc : T = c + 1 := by omega
      have hsub : T - c = 1 := by omega
      rw [hsub]
      simp only [concatFrom, List.range'_one, List.map_cons, List.map_nil,
        List.append_nil, hTc]

/-- Top-level behaviour of the loop against a constant-`T` backend, covering
the `do/while`'s "at least one request" shape: with fuel at least
`max 1 T`, it returns the hits of pages `0 .. max 1 T - 1` and total `T`,
having issued exactly `max 1 T` requests. -/
theorem getAllResultsLoop_const_run (backend : BrowseParams → BrowseResponse α)
    (args : BrowseParams) (T : Nat)
    (hT : ∀ req, (backend req).nbPages.getD 0 = T)
    (fuel : Nat) (hfuel : max 1 T ≤ fuel) :
    getAllResultsLoop backend args fuel 0 [] [] =
      some (⟨concatFrom (fun i => (backend (buildRequest args i)).hits) 0 (max 1 T), T⟩,
        (List.range' 0 (max 1 T)).map (buildRequest args)) := by
  by_cases hTpos : 0 < T
  · have hmax : max 1 T = T := by omega
    rw [hmax]
    have := getAllResultsLoop_const backend args T hT fuel 0 [] [] hTpos (by omega)
    simpa using this
  · have hT0 : T = 0 := by omega
    subst hT0
    obtain ⟨fuel', rfl⟩ : ∃ fuel', fuel = fuel' + 1 := by
      refine ⟨fuel - 1, ?_⟩; omega
    simp only [getAllResultsLoop, hT, Nat.max_self]
    rw [if_neg (by omega)]
    simp [concatFrom, string_append_empty]

/-- `ceil(N / P)` on naturals, written as the code's backend would report it. -/
def ceilDiv (N P : Nat) : Nat := (N + P - 1) / P

theorem le_ceilDiv_mul (N P : Nat) (hP : 0 < P) : N ≤ ceilDiv N P * P := by
  unfold ceilDiv
  have h1 := Nat.div_add_mod' (N + P - 1) P
  have h2 : (N + P - 1) % P < P := Nat.mod_lt _ hP
  omega

theorem ceilDiv_eq_zero (N P : Nat) (hP : 0 < P) (h : ceilDiv N P = 0) :
    N = 0 := by
  have hle := le_ceilDiv_mul N P hP
  rw [h, Nat.zero_mul] at hle
  omega

/-- A backend serving a fixed list of `records` in pages of size `P`: the
response to a request for page `i` is the `i`-th chunk of `P` records, and
the reported `nbPages` is `ceil(N / P)` for `N` the record count. -/
def pageBackend (records : List α) (P : Nat) :
    BrowseParams → BrowseResponse α :=
  fun req =>
    ⟨(records.drop (req.page.getD 0 * P)).take P,
      some (ceilDiv records.length P)⟩

theorem concatFrom_chunks (P : Nat) (hP : 0 < P) :
    ∀ (n : Nat) (l : List α), l.length ≤ n * P →
      concatFrom (fun i => (l.drop (i * P)).take P) 0 n = l := by
  intro n
  induction n with
  | zero =>
    intro l hl
    have : l = [] := List.eq_nil_of_length_eq_zero (by omega)
    subst this
    rfl
  | succ n ih =>
    intro l hl
    rw [Nat.succ_mul] at hl
    simp only [concatFrom, concatFrom_shift, Nat.zero_mul, List.drop_zero]
    have hfun : (fun i => ((l.drop ((i + 1) * P)).take P)) =
        (fun i => (((l.drop P).drop (i * P)).take P)) := by
      funext i
      rw [Nat.succ_mul, Nat.add_comm (i * P) P, ← List.drop_drop]
    rw [hfun, ih (l.drop P) (by rw [List.length_drop]; omega)]
    exact List.take_append_drop P l

/-- C1 — against a backend holding `N` records served in pages of size `P`,
`getAllResults` returns exactly the `N` records, concatenated in backend
arrival order, and reports `totalPages = ceil(N / P)`. -/
theorem getAllResults_returns_all (records : List α) (P : Nat) (hP : 0 < P)
    (args : BrowseParams) (fuel : Nat)
    (hfuel : max 1 (ceilDiv records.length P) ≤ fuel) :
    getAllResults (pageBackend records P) args fuel =
      some ⟨records, ceilDiv records.length P⟩ := by
  have hT : ∀ req, ((pageBackend records P req).nbPages).getD 0 =
      ceilDiv records.length P := fun _ => rfl
  unfold getAllResults
  rw [getAllResultsLoop_const_run _ _ _ hT fuel hfuel]
  have hfn : (fun i => (pageBackend records P (buildRequest args i)).hits) =
      (fun i => ((records.drop (i * P)).take P)) := rfl
  have hlen : records.length ≤ max 1 (ceilDiv records.length P) * P :=
    calc records.length ≤ ceilDiv records.length P * P :=
          le_ceilDiv_mul _ _ hP
      _ ≤ max 1 (ceilDiv records.length P) * P :=
          Nat.mul_le_mul_right P (Nat.le_max_right 1 _)
  rw [hfn, concatFrom_chunks P hP _ records hlen]
  rfl

/-- Witness for C1: three records in pages of two. -/
theorem getAllResults_returns_all_witness :
    getAllResults (pageBackend [10, 20, 30] 2) defaultParams 3 =
      some ⟨[10, 20, 30], 2⟩ :=
  getAllResults_returns_all [10, 20, 30] 2 (by decide) defaultParams 3
    (by decide)

/-- C3 — against a backend reporting an empty index (no hits and
`nbPages = 0` or absent), `getAllResults` returns an empty record list with
total page count `0`, and returns normally (no error). -/
theorem getAllResults_empty_index (backend : BrowseParams → BrowseResponse α)
    (args : BrowseParams) (fuel : Nat) (hfuel : 1 ≤ fuel)
    (hempty : ∀ req, (backend req).hits = [] ∧
      (backend req).nbPages.getD 0 = 0) :
    getAllResults backend args fuel = some ⟨[], 0⟩ := by
  obtain ⟨fuel', rfl⟩ : ∃ k, fuel = k + 1 := ⟨fuel - 1, by omega⟩
  have h1 := (hempty (buildRequest args 0)).1
  have h2 := (hempty (buildRequest args 0)).2
  simp [getAllResults, getAllResultsLoop, h1, h2]

/-- A backend whose every response is an empty page with an absent
`nbPages` field. -/
def emptyBackend : BrowseParams → BrowseResponse Nat := fun _ => ⟨[], none⟩

/-- Witness for C3 at the concrete empty backend. -/
theorem getAllResults_empty_index_witness :
    getAllResults emptyBackend defaultParams 1 = some ⟨[], 0⟩ :=
  getAllResults_empty_index emptyBackend defaultParams 1 (by decide)
    (fun _ => ⟨rfl, rfl⟩)

/-- An adversarial backend that always reports `nbPages` two beyond the
requested page, so `currentPage < totalPages` never fails.  Each individual
response carries a finite `nbPages`. -/
def growingBackend : BrowseParams → BrowseResponse Nat :=
  fun req => ⟨[], some (req.page.getD 0 + 2)⟩

theorem growingBackend_loop_none :
    ∀ (fuel c : Nat) (acc : List Nat) (reqs : List BrowseParams),
      getAllResultsLoop growingBackend defaultParams fuel c acc reqs =
        none := by
  intro fuel
  induction fuel with
  | zero => intro c acc reqs; rfl
  | succ fuel ih =>
    intro c acc reqs
    simp only [getAllResultsLoop]
    rw [if_pos]
    · exact ih (c + 1) _ _
    · simp [growingBackend, buildRequest]

/-- Counterexample to C5 as stated: `growingBackend` reports a finite
`nbPages` on every response, yet no amount of fuel makes `getAllResults`
finish — the loop body never reaches `currentPage >= totalPages`. -/
theorem getAllResults_termination_counterexample :
    ¬ ∃ (fuel : Nat) (r : BrowseResult Nat),
        getAllResults growingBackend defaultParams fuel = some r := by
  rintro ⟨fuel, r, h⟩
  rw [getAllResults, growingBackend_loop_none] at h
  simp at h

/-- C5 (amended) — `getAllResults` terminates whenever the backend's
reported effective page counts are uniformly bounded by some `B` (in
particular whenever the backend reports one fixed page count): fuel `B + 1`
always suffices, since the loop exits as soon as `currentPage + 1` reaches
the page count of the most recent response. -/
theorem getAllResults_terminates_of_bounded
    (backend : BrowseParams → BrowseResponse α) (args : BrowseParams)
    (B : Nat) (hB : ∀ req, (backend req).nbPages.getD 0 ≤ B) :
    (getAllResults backend args (B + 1)).isSome = true := by
  suffices h : ∀ (fuel c : Nat) (acc : List α) (reqs : List BrowseParams),
      B ≤ c + fuel →
      (getAllResultsLoop backend args (fuel + 1) c acc reqs).isSome = true by
    have hrun := h B 0 [] [] (by omega)
    unfold getAllResults
    cases hx : getAllResultsLoop backend args (B + 1) 0 [] [] with
    | none => rw [hx] at hrun; simp at hrun
    | some v => simp
  intro fuel
  induction fuel with
  | zero =>
    intro c acc reqs hc
    simp only [getAllResultsLoop]
    rw [if_neg]
    · simp
    · have := hB (buildRequest args c)
      omega
  | succ fuel ih =>
    intro c acc reqs hc
    simp only [getAllResultsLoop]
    split
    · exact ih (c + 1) _ _ (by omega)
    · simp

/-- A one-page constant backend, for the C5 witness. -/
def onePageBackend : BrowseParams → BrowseResponse Nat :=
  fun _ => ⟨[7], some 1⟩

/-- Witness for amended C5 at a concrete bounded backend. -/
theorem getAllResults_terminates_of_bounded_witness :
    (getAllResults onePageBackend defaultParams 2).isSome = true :=
  getAllResults_terminates_of_bounded onePageBackend defaultParams 1
    (fun _ => Nat.le_refl 1)

theorem getAllResultsLoop_rest_only (backend : BrowseParams → BrowseResponse α)
    (a b : BrowseParams) (hrest : a.rest = b.rest) :
    ∀ (fuel c : Nat) (acc : List α) (reqs : List BrowseParams),
      getAllResultsLoop backend a fuel c acc reqs =
        getAllResultsLoop backend b fuel c acc reqs := by
  have hbuild : ∀ c, buildRequest a c = buildRequest b c := by
    intro c
    cases a; cases b
    simp only [buildRequest]
    simp_all
  intro fuel
  induction fuel with
  | zero => intro c acc reqs; rfl
  | succ fuel ih =>
    intro c acc reqs
    simp only [getAllResultsLoop, hbuild c]
    split
    · exact ih (c + 1) _ _
    · rfl

/-- C6 — every request the loop issues is the caller's parameters with
`hitsPerPage` overridden to `1000` and `page` overridden to the current page
index (the `i`-th request asks for page `i`); consequently the run is
unchanged if the caller supplies any `hitsPerPage` or `page` of their own. -/
theorem getAllResults_overrides_params
    (backend : BrowseParams → BrowseResponse α) (args : BrowseParams)
    (fuel : Nat) (reqs : List BrowseParams)
    (h : browseRequests backend args fuel = some reqs) :
    (∀ (i : Nat) (hi : i < reqs.length),
        reqs.get ⟨i, hi⟩ = buildRequest args i ∧
        (reqs.get ⟨i, hi⟩).hitsPerPage = some 1000 ∧
        (reqs.get ⟨i, hi⟩).page = some i) ∧
      ∀ (hp pg : Option Nat),
        getAllResults backend { args with hitsPerPage := hp, page := pg }
            fuel =
          getAllResults backend args fuel := by
  constructor
  · unfold browseRequests at h
    cases hx : getAllResultsLoop backend args fuel 0 [] [] with
    | none => rw [hx] at h; simp at h
    | some v =>
      rw [hx] at h
      simp only [Option.map_some', Option.some.injEq] at h
      obtain ⟨n, hn, hshape⟩ :=
        getAllResultsLoop_requests backend args fuel 0 [] [] v.1 v.2
          (by rw [hx])
      subst h
      rw [hshape]
      intro i hi
      simp only [List.nil_append, List.length_map, List.length_range'] at hi
      have hget : (((List.range' 0 n).map (buildRequest args)).get
          ⟨i, by simpa using hi⟩) = buildRequest args i := by
        rw [List.get_map]
        congr 1
        simpa using List.getElem_range' 0 n i (by simpa using hi)
      refine ⟨by simpa using hget, ?_, ?_⟩ <;>
        simp only [List.nil_append] at * <;> rw [hget] <;> rfl
  · intro hp pg
    unfold getAllResults
    rw [getAllResultsLoop_rest_only backend
      { args with hitsPerPage := hp, page := pg } args rfl]

/-- A constant two-page backend, for the C6 witness. -/
def twoPageBackend : BrowseParams → BrowseResponse Nat :=
  fun _ => ⟨[], some 2⟩

/-- Witness for C6: against the two-page backend the run issues requests
for pages 0 and 1 built by `buildRequest`, and a caller-supplied
`hitsPerPage`/`page` pair does not change the result. -/
theorem getAllResults_overrides_params_witness :
    browseRequests twoPageBackend defaultParams 2 =
        some [buildRequest defaultParams 0, buildRequest defaultParams 1] ∧
      getAllResults twoPageBackend
          { defaultParams with hitsPerPage := some 5, page := some 9 } 2 =
        getAllResults twoPageBackend defaultParams 2 := by
  refine ⟨rfl, ?_⟩
  exact (getAllResults_overrides_params twoPageBackend defaultParams 2 _
    rfl).2 (some 5) (some 9)

theorem getAllResultsLoop_const_length
    (backend : BrowseParams → BrowseResponse α) (args : BrowseParams)
    (T : Nat) (hT : ∀ req, (backend req).nbPages.getD 0 = T) :
    ∀ (fuel c : Nat) (acc : List α) (reqs : List BrowseParams)
      (r : BrowseResult α) (reqs' : List BrowseParams),
      getAllResultsLoop backend args fuel c acc reqs = some (r, reqs') →
      reqs'.length = reqs.length + max 1 (T - c) := by
  intro fuel
  induction fuel with
  | zero => intro c acc reqs r reqs' h; simp [getAllResultsLoop] at h
  | succ fuel ih =>
    intro c acc reqs r reqs' h
    simp only [getAllResultsLoop, hT] at h
    by_cases hcond : c + 1 < T
    · rw [if_pos hcond] at h
      have := ih (c + 1) _ _ r reqs' h
      rw [this, List.length_append]
      simp only [List.length_cons, List.length_nil]
      omega
    · rw [if_neg hcond] at h
      obtain ⟨hr, hreqs⟩ := Prod.mk.injEq _ _ _ _ ▸ Option.some.injEq _ _ ▸ h
      rw [← hreqs, List.length_append]
      simp only [List.length_cons, List.length_nil]
      omega

/-- C8 — every terminating run of `getAllResults` issues at least one
browse request (the `do/while` body runs before the condition is first
checked), and against a backend reporting a constant page count `T` it
issues exactly `max 1 T` requests: the empty-index answer costs one round
trip rather than being short-circuited locally. -/
theorem getAllResults_request_count
    (backend : BrowseParams → BrowseResponse α) (args : BrowseParams)
    (fuel : Nat) (reqs : List BrowseParams)
    (h : browseRequests backend args fuel = some reqs) :
    1 ≤ reqs.length ∧
      ∀ T, (∀ req, (backend req).nbPages.getD 0 = T) →
        reqs.length = max 1 T := by
  unfold browseRequests at h
  cases hx : getAllResultsLoop backend args fuel 0 [] [] with
  | none => rw [hx] at h; simp at h
  | some v =>
    rw [hx] at h
    simp only [Option.map_some', Option.some.injEq] at h
    subst h
    constructor
    · obtain ⟨n, hn, hshape⟩ :=
        getAllResultsLoop_requests backend args fuel 0 [] [] v.1 v.2
          (by rw [hx])
      rw [hshape]
      simpa using hn
    · intro T hT
      have := getAllResultsLoop_const_length backend args T hT fuel 0 [] []
        v.1 v.2 (by rw [hx])
      simpa using this

/-- Witness for C8: the empty index costs exactly one request. -/
theorem getAllResults_request_count_witness :
    browseRequests emptyBackend defaultParams 1 =
        some [buildRequest defaultParams 0] ∧
      [buildRequest defaultParams 0].length = max 1 0 := by
  refine ⟨rfl, ?_⟩
  exact (getAllResults_request_count emptyBackend defaultParams 1 _ rfl).2 0
    (fun _ => rfl)

/-! ## Multi-index search (`multiSearch`, mdx lines 107-111) -/

/-- Modelled from the spec: the body of the `multiSearch` helper is not
included in the article (only the facade wiring
`multiSearch: async (args) => multiSearch(args, client)` appears), and the
spec describes it as `multiSearch(queries) -> Page[]`: one result set per
submitted query, order-preserving pass-through to the backend. -/
def multiSearch (backend : Q → R) (queries : List Q) : List R :=
  queries.map backend

/-- C7 — `multiSearch` returns exactly one result set per submitted query,
and the `i`-th result set answers the `i`-th submitted query, for every
backend model and query list; in particular 3 queries yield 3 result sets
in submission order. -/
theorem multiSearch_one_result_per_query (backend : Q → R)
    (queries : List Q) :
    (multiSearch backend queries).length = queries.length ∧
      ∀ i : Nat, (multiSearch backend queries)[i]? =
        (queries[i]?).map backend := by
  constructor
  · exact List.length_map queries backend
  · intro i
    exact List.getElem?_map backend queries i

/-! ## Homepage display (`Home`, `src/app/Main.tsx`) -/

/-- `MAX_DISPLAY` from `Main.tsx` line 11. -/
def MAX_DISPLAY : Nat := 3

/-- `FEATURED_DISPLAY` from `Main.tsx` line 12. -/
def FEATURED_DISPLAY : Nat := 4

/-- JavaScript `Array.prototype.slice(start, stop)` for the in-range uses
in `Home`: the elements at indices `start <= i < stop`. -/
def jsSlice (l : List α) (start stop : Nat) : List α :=
  (l.drop start).take (stop - start)

/-- `featuredPosts = posts.slice(0, FEATURED_DISPLAY)` (`Main.tsx` line 38). -/
def featuredPosts (posts : List α) : List α :=
  jsSlice posts 0 FEATURED_DISPLAY

/-- `remainingPosts = posts.slice(FEATURED_DISPLAY, FEATURED_DISPLAY +
MAX_DISPLAY)` (`Main.tsx` line 39). -/
def remainingPosts (posts : List α) : List α :=
  jsSlice posts FEATURED_DISPLAY (FEATURED_DISPLAY + MAX_DISPLAY)

/-- The guard of the "All Posts" link:
`posts.length > FEATURED_DISPLAY + MAX_DISPLAY` (`Main.tsx` line 169). -/
def showAllPostsLink (posts : List α) : Bool :=
  FEATURED_DISPLAY + MAX_DISPLAY < posts.length

/-- C10 — the `Home` component's featured grid is exactly
`posts.slice(0, 4)`, its Latest list is exactly `posts.slice(4, 7)`, the two
are positionally disjoint and concatenate to the 7-element input prefix in
input order (so at most 7 posts render), and the "All Posts" link renders
exactly when more than 7 posts were supplied. -/
theorem home_renders_prefix (posts : List α) :
    featuredPosts posts = posts.take 4 ∧
      remainingPosts posts = (posts.drop 4).take 3 ∧
      featuredPosts posts ++ remainingPosts posts = posts.take 7 ∧
      (featuredPosts posts).length + (remainingPosts posts).length ≤ 7 ∧
      (showAllPostsLink posts = true ↔ 7 < posts.length) := by
  have hfeat : featuredPosts posts = posts.take 4 := by
    simp [featuredPosts, jsSlice, FEATURED_DISPLAY]
  have hrem : remainingPosts posts = (posts.drop 4).take 3 := by
    simp [remainingPosts, jsSlice, FEATURED_DISPLAY, MAX_DISPLAY]
  refine ⟨hfeat, hrem, ?_, ?_, ?_⟩
  · rw [hfeat, hrem]
    exact (List.take_add posts 4 3).symm
  · rw [hfeat, hrem]
    have h1 := List.length_take_le 4 posts
    have h2 := List.length_take_le 3 (posts.drop 4)
    omega
  · simp [showAllPostsLink, FEATURED_DISPLAY, MAX_DISPLAY]

end CodeDispatch
